import Mathlib

/-!
Shallow embedding of `internal/controller/object/informers.go` from
provider-kubernetes: the `referencedResourceInformers` type, its `Start`,
`WatchReferencedResources` and `cleanupReferencedResourceInformers`
methods, and the update-event handler it installs on composed-resource
informers.

Go maps (`cdCaches`, `sinks`) are embedded as association lists with
unique keys; the opaque external collaborators (controller-runtime cache
construction, informer acquisition, handler attachment, the indexed
`List` query) are embedded as oracle parameters describing their outcome,
since only their success/failure and result count influence the control
flow of this file.  Invoking a session's `cancelFn` is recorded by
appending the session's identifier to a `cancelled` log.
-/

namespace Informers

/-- `schema.GroupVersionKind` (only its identity matters here). -/
structure GVK where
  group : String
  version : String
  kind : String
deriving DecidableEq, Repr

/-- `gvkWithConfig` (informers.go lines 47-50): the key of `cdCaches`,
a provider-config name plus a GVK.  This is the spec's WatchKey. -/
structure gvkWithConfig where
  config : String
  gvk : GVK
deriving DecidableEq, Repr

/-- `gvkWithConfig.String` (informers.go lines 52-54), with the GVK
rendered as its three components joined by commas. -/
def gvkWithConfig.stringForm (g : gvkWithConfig) : String :=
  g.config ++ "." ++ g.gvk.group ++ "," ++ g.gvk.version ++ "," ++ g.gvk.kind

/-- A Kubernetes object as far as the handler inspects it: its
resource-version (compared at line 141) plus an opaque payload. -/
structure KObject where
  resourceVersion : String
  payload : String
deriving DecidableEq, Repr

/-- `runtimeevent.UpdateEvent` (lines 148-151): the (old, new) pair. -/
structure UpdateEvent where
  objectOld : KObject
  objectNew : KObject
deriving DecidableEq, Repr

/-- The result of a sink's terminal handler call `h.Update(ctx, ev, q)`
(line 79): which handler/queue was invoked, with which event. -/
abbrev HandlerCall := String × UpdateEvent

/-- The type of the closures stored in `i.sinks` (line 44.  A sink maps
an update event to the terminal handler call it performs, if any). -/
abbrev DeliveryFn := UpdateEvent → Option HandlerCall

/-- `cdCache` (lines 56-59): a session's cache and its `cancelFn`,
identified here by the session identifier the cancellation log uses. -/
structure cdCache where
  sessionId : Nat
deriving DecidableEq, Repr

/-- The mutable state of `referencedResourceInformers` (lines 34-45):
the `cdCaches` registry and the `sinks` table, plus instrumentation:
`nextSession` allocates fresh session identifiers for
`context.WithCancel` and `cancelled` logs every `cancelFn` invocation. -/
structure InformersState where
  cdCaches : List (gvkWithConfig × cdCache)
  sinks : List (String × DeliveryFn)
  nextSession : Nat
  cancelled : List Nat

/-- First-match association-list lookup on the `cdCaches` registry,
embedding `i.cdCaches[gc]`. -/
def lookupKey (l : List (gvkWithConfig × cdCache)) (k : gvkWithConfig) : Option cdCache :=
  match l with
  | [] => none
  | e :: rest => if e.1 = k then some e.2 else lookupKey rest k

/-- First-match association-list lookup on the `sinks` table,
embedding `i.sinks[id]`. -/
def lookupSink (l : List (String × DeliveryFn)) (id : String) : Option DeliveryFn :=
  match l with
  | [] => none
  | e :: rest => if e.1 = id then some e.2 else lookupSink rest id

/-- Go map assignment `i.sinks[id] = f`: replace the entry if the key is
present, otherwise append. -/
def insertSink (l : List (String × DeliveryFn)) (id : String) (f : DeliveryFn) :
    List (String × DeliveryFn) :=
  match l with
  | [] => [(id, f)]
  | e :: rest => if e.1 = id then (id, f) :: rest else e :: insertSink rest id f

/-- The `UpdateFunc` closure installed at lines 138-155: if the old and
new objects report the same resource-version, return without calling
anyone; otherwise invoke every `handleFn` currently in `sinks` with the
(old, new) pair.  The result lists one element `(id, ev)` per delivery
closure invoked, in table order. -/
def sessionUpdateHandler (sinks : List (String × DeliveryFn)) (oldObj newObj : KObject) :
    List (String × UpdateEvent) :=
  if oldObj.resourceVersion = newObj.resourceVersion then []
  else sinks.map (fun e => (e.1, ⟨oldObj, newObj⟩))

/-- The predicate loop inside the closure `Start` stores in `i.sinks`
(lines 73-80): predicates run left to right; the first one returning
false ends the loop with an early return; if none rejects, the terminal
`h.Update(ctx, ev, q)` runs.  The first component records the observed
result of each predicate actually evaluated, in evaluation order; the
second says whether the terminal handler was reached. -/
def runPredicates (ps : List (UpdateEvent → Bool)) (ev : UpdateEvent) : List Bool × Bool :=
  match ps with
  | [] => ([], true)
  | p :: rest =>
    if p ev then
      let r := runPredicates rest ev
      (true :: r.1, r.2)
    else ([false], false)

/-- The delivery closure `Start` builds over its `ps` and `h`/`q`
arguments (lines 73-80); `handlerId` stands for the captured handler and
queue pair. -/
def mkDeliveryFn (ps : List (UpdateEvent → Bool)) (handlerId : String) : DeliveryFn :=
  fun ev => if (runPredicates ps ev).2 then some (handlerId, ev) else none

/-- `Start` (lines 68-91): under the write lock, store the delivery
closure in `sinks` under the fresh uuid `id`, spawn the
unsubscribe-on-ctx-done goroutine (embedded separately as
`unsubscribe`), and return `nil`.  The second component is the returned
`error` value. -/
def start (st : InformersState) (id : String) (ps : List (UpdateEvent → Bool))
    (handlerId : String) : InformersState × Option String :=
  ({ st with sinks := insertSink st.sinks id (mkDeliveryFn ps handlerId) }, none)

/-- The goroutine spawned by `Start` (lines 82-88): once the
subscriber's context is done, delete its entry from `sinks` under the
write lock. -/
def unsubscribe (st : InformersState) (id : String) : InformersState :=
  { st with sinks := st.sinks.filter (fun e => decide (e.1 ≠ id)) }

/-- `kcache.ResourceEventHandlerFuncs`: an adapter holding one optional
function per notification kind; a nil (`none`) field means the
corresponding notification is ignored.  The functions return the list
of delivery-closure invocations they perform. -/
structure ResourceEventHandlerFuncs where
  addFunc : Option (KObject → List (String × UpdateEvent))
  updateFunc : Option (KObject → KObject → List (String × UpdateEvent))
  deleteFunc : Option (KObject → List (String × UpdateEvent))

/-- A notification emitted by the underlying resource cache. -/
inductive CacheEvent where
  | add (obj : KObject)
  | update (oldObj newObj : KObject)
  | delete (obj : KObject)

/-- Dispatch of a cache notification through a
`ResourceEventHandlerFuncs` adapter: call the matching field when it is
set, do nothing when it is nil (client-go's documented adapter
behavior). -/
def dispatchEvent (h : ResourceEventHandlerFuncs) : CacheEvent → List (String × UpdateEvent)
  | CacheEvent.add obj =>
    match h.addFunc with
    | none => []
    | some f => f obj
  | CacheEvent.update oldObj newObj =>
    match h.updateFunc with
    | none => []
    | some f => f oldObj newObj
  | CacheEvent.delete obj =>
    match h.deleteFunc with
    | none => []
    | some f => f obj

/-- The handler `WatchReferencedResources` registers at lines 137-156:
a `ResourceEventHandlerFuncs` literal whose only set field is
`UpdateFunc`. -/
def installedEventHandler (sinks : List (String × DeliveryFn)) : ResourceEventHandlerFuncs :=
  { addFunc := none
    updateFunc := some (fun oldObj newObj => sessionUpdateHandler sinks oldObj newObj)
    deleteFunc := none }

/-- Outcome of the three fallible external steps in the per-key body of
`WatchReferencedResources`: `cache.New` (line 118), `ca.GetInformer`
(line 130), `inf.AddEventHandler` (line 137).  `ok` means all three
succeeded. -/
inductive EnsureOutcome where
  | cacheNewFails
  | getInformerFails
  | addHandlerFails
  | ok
deriving DecidableEq, Repr

/-- One iteration of the loop in `WatchReferencedResources`
(lines 106-180) for key `gc`:
keys already in `cdCaches` are skipped (lines 107-109); if `cache.New`
fails, log and continue with nothing created (lines 118-122); the
cancellable context (session `st.nextSession`) is created at line 126;
if `GetInformer` or `AddEventHandler` fails, `cancelFn()` runs and the
loop continues (lines 131-135, 156-160); on success the session is
recorded in `cdCaches` (lines 169-172) and the cache-start and
wait-for-sync goroutines are spawned (lines 162-167, 175-179). -/
def ensureOne (env : gvkWithConfig → EnsureOutcome) (st : InformersState)
    (gc : gvkWithConfig) : InformersState :=
  if (lookupKey st.cdCaches gc).isSome then st
  else
    match env gc with
    | EnsureOutcome.cacheNewFails => st
    | EnsureOutcome.getInformerFails =>
      { st with nextSession := st.nextSession + 1
                cancelled := st.cancelled ++ [st.nextSession] }
    | EnsureOutcome.addHandlerFails =>
      { st with nextSession := st.nextSession + 1
                cancelled := st.cancelled ++ [st.nextSession] }
    | EnsureOutcome.ok =>
      { st with cdCaches := st.cdCaches ++ [(gc, ⟨st.nextSession⟩)]
                nextSession := st.nextSession + 1 }

/-- `WatchReferencedResources` (lines 101-181): loop `ensureOne` over
the given keys.  The Go method returns nothing, so the embedding
returns only the state: no error can reach the caller. -/
def watchReferencedResources (env : gvkWithConfig → EnsureOutcome)
    (st : InformersState) (gcs : List gvkWithConfig) : InformersState :=
  gcs.foldl (ensureOne env) st

/-- One iteration of the loop in `cleanupReferencedResourceInformers`
(lines 190-203) for entry `e`.  The oracle `q` is the indexed
`objectsCache.List` query: `none` means the query returned an error (in
which case the error is logged and `list.Items` stays empty, line 192-
194), `some n` means it succeeded with `n` matching items.  When the
item count is positive the entry is kept (lines 196-198); otherwise
`cancelFn()` runs and the entry is deleted (lines 200-202). -/
def sweepStep (q : gvkWithConfig → Option Nat) (st : InformersState)
    (e : gvkWithConfig × cdCache) : InformersState :=
  if 0 < (q e.1).getD 0 then st
  else
    { st with cdCaches := st.cdCaches.filter (fun f => decide (f.1 ≠ e.1))
              cancelled := st.cancelled ++ [e.2.sessionId] }

/-- An entry is garbage-collected by a sweep iteration exactly when its
query yields an item count of zero — which is also what a failed query
leaves behind, since the error is only logged (lines 192-194). -/
def sweepRemoves (q : gvkWithConfig → Option Nat) (e : gvkWithConfig × cdCache) : Bool :=
  decide ((q e.1).getD 0 = 0)

/-- `cleanupReferencedResourceInformers` (lines 188-204): iterate the
sweep over every entry of `cdCaches`. -/
def cleanupReferencedResourceInformers (q : gvkWithConfig → Option Nat)
    (st : InformersState) : InformersState :=
  st.cdCaches.foldl (sweepStep q) st

/-- Lock and table-mutation events, in program order, for checking the
locking discipline of the four operations. -/
inductive LockEvent where
  | rlock
  | runlock
  | wlock
  | wunlock
  | mutateRegistry
  | mutateSinks
deriving DecidableEq, Repr

/-- Checker: given a trace and the current write-lock depth, every
registry or sinks mutation must occur while the write lock is held. -/
def mutationsUnderWriteLock : List LockEvent → Nat → Bool
  | [], _ => true
  | LockEvent.wlock :: tr, d => mutationsUnderWriteLock tr (d + 1)
  | LockEvent.wunlock :: tr, d => mutationsUnderWriteLock tr (d - 1)
  | LockEvent.rlock :: tr, d => mutationsUnderWriteLock tr d
  | LockEvent.runlock :: tr, d => mutationsUnderWriteLock tr d
  | LockEvent.mutateRegistry :: tr, d => decide (0 < d) && mutationsUnderWriteLock tr d
  | LockEvent.mutateSinks :: tr, d => decide (0 < d) && mutationsUnderWriteLock tr d

/-- Trace of `Start` (lines 71-80): `i.lock.Lock()`, the `sinks`
insertion, then the deferred `Unlock`. -/
def startTrace : List LockEvent :=
  [LockEvent.wlock, LockEvent.mutateSinks, LockEvent.wunlock]

/-- Trace of the unsubscribe goroutine (lines 85-87): `Lock`, the
`sinks` deletion, the deferred `Unlock`. -/
def unsubscribeTrace : List LockEvent :=
  [LockEvent.wlock, LockEvent.mutateSinks, LockEvent.wunlock]

/-- Mutation events of the loop body of `WatchReferencedResources`,
tracking the set of keys present: each newly created session is written
to `cdCaches` (line 169) inside the critical section. -/
def watchBodyTrace (env : gvkWithConfig → EnsureOutcome) :
    List gvkWithConfig → List gvkWithConfig → List LockEvent
  | _, [] => []
  | ks, gc :: rest =>
    if gc ∈ ks then watchBodyTrace env ks rest
    else
      match env gc with
      | EnsureOutcome.ok => LockEvent.mutateRegistry :: watchBodyTrace env (ks ++ [gc]) rest
      | _ => watchBodyTrace env ks rest

/-- Trace of `WatchReferencedResources` (lines 102-103): `RLock`, the
loop body, the deferred `RUnlock` — the registry insertions happen
under the read lock. -/
def watchReferencedResourcesTrace (env : gvkWithConfig → EnsureOutcome)
    (ks gcs : List gvkWithConfig) : List LockEvent :=
  LockEvent.rlock :: (watchBodyTrace env ks gcs ++ [LockEvent.runlock])

/-- Trace of `cleanupReferencedResourceInformers` (lines 188-204): one
registry deletion per garbage-collected entry, with no lock acquired
anywhere in the method. -/
def cleanupTrace (q : gvkWithConfig → Option Nat)
    (entries : List (gvkWithConfig × cdCache)) : List LockEvent :=
  entries.filterMap (fun e =>
    if 0 < (q e.1).getD 0 then none else some LockEvent.mutateRegistry)

end Informers

namespace Informers

/-- Helper: in a list of keyed entries with pairwise-distinct keys, the
number of entries carrying a key that occurs equals one. -/
theorem countP_key_eq_one {α : Type} (l : List (String × α)) (id : String)
    (hnodup : (l.map Prod.fst).Nodup) (hmem : id ∈ l.map Prod.fst) :
    l.countP (fun x => decide (x.1 = id)) = 1 := by
  induction l with
  | nil => simp at hmem
  | cons e rest ih =>
    rw [List.map_cons, List.nodup_cons] at hnodup
    rw [List.countP_cons]
    by_cases hid : e.1 = id
    · subst hid
      have hzero : rest.countP (fun x => decide (x.1 = e.1)) = 0 := by
        rw [List.countP_eq_zero]
        intro a ha
        simp only [decide_eq_true_eq]
        intro hcontra
        exact hnodup.1 (hcontra ▸ List.mem_map_of_mem Prod.fst ha)
      simp [hzero]
    · have hmem2 : id ∈ rest.map Prod.fst := by
        rcases List.mem_cons.mp hmem with h | h
        · exact absurd h.symm hid
        · exact h
      simp [ih hnodup.2 hmem2, hid]

/-- Claim C3: for every (old, new) pair delivered to the session's
update handler, equal resource-versions invoke no DeliveryFn, and
distinct resource-versions invoke every DeliveryFn registered in the
sinks table exactly once with that (old, new) pair. -/
theorem sessionUpdateHandler_fanout_spec (sinks : List (String × DeliveryFn))
    (oldObj newObj : KObject) (hnodup : (sinks.map Prod.fst).Nodup) :
    (oldObj.resourceVersion = newObj.resourceVersion →
      sessionUpdateHandler sinks oldObj newObj = [])
    ∧ (oldObj.resourceVersion ≠ newObj.resourceVersion →
      ∀ e ∈ sinks,
        (sessionUpdateHandler sinks oldObj newObj).countP
          (fun c => decide (c = (e.1, (⟨oldObj, newObj⟩ : UpdateEvent)))) = 1) := by
  constructor
  · intro h
    simp [sessionUpdateHandler, h]
  · intro h e he
    unfold sessionUpdateHandler
    rw [if_neg h, List.countP_map]
    have hcong : sinks.countP
        ((fun c => decide (c = (e.1, (⟨oldObj, newObj⟩ : UpdateEvent)))) ∘
          (fun x => (x.1, (⟨oldObj, newObj⟩ : UpdateEvent))))
        = sinks.countP (fun x => decide (x.1 = e.1)) := by
      apply List.countP_congr
      intro a _
      simp [Function.comp, Prod.ext_iff]
    rw [hcong]
    exact countP_key_eq_one sinks e.1 hnodup (List.mem_map_of_mem Prod.fst he)

/-- Witness for C3 at a concrete table and pair: two sinks, distinct
resource-versions, each delivery closure invoked exactly once. -/
theorem sessionUpdateHandler_fanout_witness :
    ((([("s1", fun _ => none), ("s2", fun _ => none)] :
        List (String × DeliveryFn)).map Prod.fst).Nodup)
    ∧ (sessionUpdateHandler
        [("s1", fun _ => none), ("s2", fun _ => none)]
        ⟨"1", "a"⟩ ⟨"2", "a"⟩).countP
        (fun c => decide (c = (("s1" : String),
          (⟨⟨"1", "a"⟩, ⟨"2", "a"⟩⟩ : UpdateEvent)))) = 1 := by
  refine ⟨by simp, ?_⟩
  exact (sessionUpdateHandler_fanout_spec
      [("s1", fun _ => none), ("s2", fun _ => none)] ⟨"1", "a"⟩ ⟨"2", "a"⟩
      (by simp)).2 (by simp) ("s1", fun _ => none) (by simp)

/-- Claim C9: `Start` always returns a nil error, for every state, id,
predicate list and handler. -/
theorem start_returns_nil_error (st : InformersState) (id : String)
    (ps : List (UpdateEvent → Bool)) (handlerId : String) :
    (start st id ps handlerId).2 = none := rfl

/-- Helper: when every predicate accepts the event, the loop evaluates
them all and reaches the terminal handler. -/
theorem runPredicates_all_accept (ps : List (UpdateEvent → Bool)) (ev : UpdateEvent)
    (h : ∀ p ∈ ps, p ev = true) :
    runPredicates ps ev = (ps.map (fun _ => true), true) := by
  induction ps with
  | nil => rfl
  | cons p rest ih =>
    have hp : p ev = true := h p (List.mem_cons_self p rest)
    have hrest := ih (fun q hq => h q (List.mem_cons_of_mem p hq))
    simp [runPredicates, hp, hrest]

/-- Helper: the first rejecting predicate ends the loop, with the
predicates after it never evaluated and the handler not reached. -/
theorem runPredicates_reject (pre post : List (UpdateEvent → Bool))
    (p : UpdateEvent → Bool) (ev : UpdateEvent)
    (hpre : ∀ q ∈ pre, q ev = true) (hp : p ev = false) :
    runPredicates (pre ++ p :: post) ev = (pre.map (fun _ => true) ++ [false], false) := by
  induction pre with
  | nil => simp [runPredicates, hp]
  | cons q rest ih =>
    have hq : q ev = true := hpre q (List.mem_cons_self q rest)
    have hrest := ih (fun r hr => hpre r (List.mem_cons_of_mem q hr))
    simp [runPredicates, hq, hrest]

/-- Claim C7: the delivery closure built by `Start` evaluates the
predicates in list order; if all accept, every predicate is evaluated
and the terminal handler is invoked with the event and queue; at the
first rejecting predicate the loop stops, evaluating exactly the
accepting prefix plus that predicate, and the handler is not invoked. -/
theorem start_deliveryFn_predicate_spec (ps : List (UpdateEvent → Bool))
    (handlerId : String) (ev : UpdateEvent) :
    ((∀ p ∈ ps, p ev = true) →
      runPredicates ps ev = (ps.map (fun _ => true), true)
      ∧ mkDeliveryFn ps handlerId ev = some (handlerId, ev))
    ∧ (∀ pre p post, ps = pre ++ p :: post →
      (∀ q ∈ pre, q ev = true) → p ev = false →
      runPredicates ps ev = (pre.map (fun _ => true) ++ [false], false)
      ∧ mkDeliveryFn ps handlerId ev = none) := by
  constructor
  · intro h
    have hr := runPredicates_all_accept ps ev h
    exact ⟨hr, by simp [mkDeliveryFn, hr]⟩
  · intro pre p post hsplit hpre hp
    subst hsplit
    have hr := runPredicates_reject pre post p ev hpre hp
    exact ⟨hr, by simp [mkDeliveryFn, hr]⟩

/-- Witness for C7: with an accepting predicate followed by a rejecting
one, the trace stops after the rejection and no handler call happens. -/
theorem start_deliveryFn_predicate_witness :
    ((fun _ : UpdateEvent => false) (⟨⟨"1", "a"⟩, ⟨"2", "a"⟩⟩ : UpdateEvent) = false)
    ∧ runPredicates [fun _ => true, fun _ => false, fun _ => true]
        (⟨⟨"1", "a"⟩, ⟨"2", "a"⟩⟩ : UpdateEvent) = ([true, false], false)
    ∧ mkDeliveryFn [fun _ => true, fun _ => false, fun _ => true] "h"
        (⟨⟨"1", "a"⟩, ⟨"2", "a"⟩⟩ : UpdateEvent) = none := by
  have h := (start_deliveryFn_predicate_spec
      [fun _ => true, fun _ => false, fun _ => true] "h"
      (⟨⟨"1", "a"⟩, ⟨"2", "a"⟩⟩ : UpdateEvent)).2
      [fun _ => true] (fun _ => false) [fun _ => true] rfl
      (by intro q hq; simp only [List.mem_singleton] at hq; subst hq; rfl) rfl
  exact ⟨rfl, h.1, h.2⟩

/-- Helper: deleting a key from the sinks table makes lookup of that
key fail. -/
theorem lookupSink_filter_self (l : List (String × DeliveryFn)) (id : String) :
    lookupSink (l.filter (fun e => decide (e.1 ≠ id))) id = none := by
  induction l with
  | nil => rfl
  | cons e rest ih =>
    rw [List.filter_cons]
    by_cases h : e.1 = id
    · rw [if_neg (by simp [h])]
      exact ih
    · rw [if_pos (by simp [h])]
      simp only [lookupSink]
      rw [if_neg h]
      exact ih

/-- Helper: deleting a key from the sinks table leaves lookups of every
other key unchanged. -/
theorem lookupSink_filter_other (l : List (String × DeliveryFn)) (id id2 : String)
    (h : id2 ≠ id) :
    lookupSink (l.filter (fun e => decide (e.1 ≠ id))) id2 = lookupSink l id2 := by
  induction l with
  | nil => rfl
  | cons e rest ih =>
    rw [List.filter_cons]
    by_cases he : e.1 = id
    · rw [if_neg (by simp [he])]
      rw [ih]
      have hne : ¬e.1 = id2 := by
        rw [he]
        exact fun hc => h hc.symm
      simp only [lookupSink]
      rw [if_neg hne]
    · rw [if_pos (by simp [he])]
      simp only [lookupSink]
      by_cases he2 : e.1 = id2
      · rw [if_pos he2, if_pos he2]
      · rw [if_neg he2, if_neg he2]
        exact ih

/-- Claim C8: when a subscriber's context ends, exactly its entry
leaves the sinks table — the session registry, the cancellation log and
every other subscriber's entry are unchanged — and a notification
firing after the removal never invokes the removed delivery closure. -/
theorem unsubscribe_frame_spec (st : InformersState) (id : String) :
    (unsubscribe st id).cdCaches = st.cdCaches
    ∧ (unsubscribe st id).cancelled = st.cancelled
    ∧ lookupSink (unsubscribe st id).sinks id = none
    ∧ (∀ id2, id2 ≠ id →
        lookupSink (unsubscribe st id).sinks id2 = lookupSink st.sinks id2)
    ∧ (∀ oldObj newObj c,
        c ∈ sessionUpdateHandler (unsubscribe st id).sinks oldObj newObj → c.1 ≠ id) := by
  refine ⟨rfl, rfl, lookupSink_filter_self st.sinks id,
    fun id2 h => lookupSink_filter_other st.sinks id id2 h, ?_⟩
  intro oldObj newObj c hc
  unfold sessionUpdateHandler unsubscribe at hc
  by_cases hrv : oldObj.resourceVersion = newObj.resourceVersion
  · rw [if_pos hrv] at hc
    simp at hc
  · rw [if_neg hrv] at hc
    rcases List.mem_map.mp hc with ⟨e, he, rfl⟩
    have hp := List.of_mem_filter he
    simpa using hp

/-- Witness for C8: removing subscriber "a" leaves subscriber "b"'s
entry where it was. -/
theorem unsubscribe_frame_witness :
    (("b" : String) ≠ "a")
    ∧ lookupSink (unsubscribe
        ⟨[], [("a", fun _ => none), ("b", fun _ => none)], 0, []⟩ "a").sinks "b"
      = lookupSink [("a", fun _ => none), ("b", fun _ => none)] "b" := by
  refine ⟨by decide, ?_⟩
  exact (unsubscribe_frame_spec
      ⟨[], [("a", fun _ => none), ("b", fun _ => none)], 0, []⟩ "a").2.2.2.1 "b" (by decide)

/-- Claim C10: the handler a watch session registers sets only
`UpdateFunc`, so add and delete notifications from the underlying cache
invoke no delivery closure; only updates, after the resource-version
check, reach the fan-out over the sinks table. -/
theorem installedEventHandler_update_only_spec (sinks : List (String × DeliveryFn)) :
    (installedEventHandler sinks).addFunc = none
    ∧ (installedEventHandler sinks).deleteFunc = none
    ∧ (∀ obj, dispatchEvent (installedEventHandler sinks) (CacheEvent.add obj) = [])
    ∧ (∀ obj, dispatchEvent (installedEventHandler sinks) (CacheEvent.delete obj) = [])
    ∧ (∀ oldObj newObj, oldObj.resourceVersion = newObj.resourceVersion →
        dispatchEvent (installedEventHandler sinks) (CacheEvent.update oldObj newObj) = [])
    ∧ (∀ oldObj newObj, oldObj.resourceVersion ≠ newObj.resourceVersion →
        dispatchEvent (installedEventHandler sinks) (CacheEvent.update oldObj newObj)
          = sinks.map (fun e => (e.1, (⟨oldObj, newObj⟩ : UpdateEvent)))) := by
  refine ⟨rfl, rfl, fun obj => rfl, fun obj => rfl, ?_, ?_⟩
  · intro oldObj newObj h
    simp [dispatchEvent, installedEventHandler, sessionUpdateHandler, h]
  · intro oldObj newObj h
    simp [dispatchEvent, installedEventHandler, sessionUpdateHandler, h]

/-- Witness for C10: an update with distinct resource-versions reaches
the single registered sink, while adds and deletes cannot (the fields
are nil by the first two conjuncts, at any concrete table). -/
theorem installedEventHandler_update_only_witness :
    ((("1" : String) ≠ "2")
    ∧ dispatchEvent (installedEventHandler [("s1", fun _ => none)])
        (CacheEvent.update ⟨"1", "a"⟩ ⟨"2", "a"⟩)
      = [("s1", (⟨⟨"1", "a"⟩, ⟨"2", "a"⟩⟩ : UpdateEvent))]) := by
  refine ⟨by decide, ?_⟩
  exact (installedEventHandler_update_only_spec
      [("s1", fun _ => none)]).2.2.2.2.2 ⟨"1", "a"⟩ ⟨"2", "a"⟩ (by decide)

/-- Helper: a successful registry lookup is unaffected by appending
entries at the tail. -/
theorem lookupKey_append_of_isSome (l l2 : List (gvkWithConfig × cdCache))
    (k : gvkWithConfig) (h : (lookupKey l k).isSome) :
    lookupKey (l ++ l2) k = lookupKey l k := by
  induction l with
  | nil => simp [lookupKey] at h
  | cons e rest ih =>
    simp only [List.cons_append, lookupKey]
    by_cases he : e.1 = k
    · rw [if_pos he, if_pos he]
    · rw [if_neg he, if_neg he]
      apply ih
      simpa only [lookupKey, if_neg he] using h

/-- Helper: one `WatchReferencedResources` iteration never changes the
registry entry of a key that is already present. -/
theorem lookupKey_ensureOne (env : gvkWithConfig → EnsureOutcome)
    (st : InformersState) (gc gc2 : gvkWithConfig)
    (h : (lookupKey st.cdCaches gc).isSome) :
    lookupKey (ensureOne env st gc2).cdCaches gc = lookupKey st.cdCaches gc := by
  unfold ensureOne
  by_cases hf : (lookupKey st.cdCaches gc2).isSome
  · rw [if_pos hf]
  · rw [if_neg hf]
    cases env gc2
    · rfl
    · rfl
    · rfl
    · exact lookupKey_append_of_isSome st.cdCaches [(gc2, ⟨st.nextSession⟩)] gc h

/-- Helper: a whole `WatchReferencedResources` call never changes the
registry entry of a key that is already present. -/
theorem lookupKey_watchReferencedResources (env : gvkWithConfig → EnsureOutcome)
    (st : InformersState) (gcs : List gvkWithConfig) (gc : gvkWithConfig)
    (h : (lookupKey st.cdCaches gc).isSome) :
    lookupKey (watchReferencedResources env st gcs).cdCaches gc
      = lookupKey st.cdCaches gc := by
  induction gcs generalizing st with
  | nil => rfl
  | cons g rest ih =>
    have h2 := lookupKey_ensureOne env st gc g h
    have h3 : (lookupKey (ensureOne env st g).cdCaches gc).isSome := by
      rw [h2]; exact h
    calc lookupKey (watchReferencedResources env (ensureOne env st g) rest).cdCaches gc
        = lookupKey (ensureOne env st g).cdCaches gc := ih (ensureOne env st g) h3
      _ = lookupKey st.cdCaches gc := h2

/-- Claim C4: `WatchReferencedResources` is idempotent per key: a key
already present in the registry is skipped with no side effect at all,
and across every further sequence of calls its registry entry is never
replaced — no second session is ever created for it. -/
theorem watchReferencedResources_idempotent (env : gvkWithConfig → EnsureOutcome)
    (st : InformersState) (gc : gvkWithConfig)
    (h : (lookupKey st.cdCaches gc).isSome = true) :
    ensureOne env st gc = st
    ∧ ∀ calls : List (List gvkWithConfig),
        lookupKey ((calls.foldl (watchReferencedResources env) st)).cdCaches gc
          = lookupKey st.cdCaches gc := by
  constructor
  · unfold ensureOne
    rw [if_pos h]
  · intro calls
    induction calls generalizing st with
    | nil => rfl
    | cons c rest ih =>
      have h2 := lookupKey_watchReferencedResources env st c gc h
      have h3 : (lookupKey (watchReferencedResources env st c).cdCaches gc).isSome = true := by
        rw [h2]; exact h
      calc lookupKey ((rest.foldl (watchReferencedResources env)
              (watchReferencedResources env st c))).cdCaches gc
          = lookupKey (watchReferencedResources env st c).cdCaches gc :=
            ih (watchReferencedResources env st c) h3
        _ = lookupKey st.cdCaches gc := h2

/-- Witness for C4: a registry holding one key skips a repeated watch
request for that key with no state change. -/
theorem watchReferencedResources_idempotent_witness :
    ((lookupKey [(⟨"c", ⟨"g", "v", "K"⟩⟩, ⟨0⟩)] ⟨"c", ⟨"g", "v", "K"⟩⟩).isSome = true)
    ∧ ensureOne (fun _ => EnsureOutcome.ok)
        ⟨[(⟨"c", ⟨"g", "v", "K"⟩⟩, ⟨0⟩)], [], 1, []⟩ ⟨"c", ⟨"g", "v", "K"⟩⟩
      = ⟨[(⟨"c", ⟨"g", "v", "K"⟩⟩, ⟨0⟩)], [], 1, []⟩ := by
  refine ⟨by decide, ?_⟩
  exact (watchReferencedResources_idempotent (fun _ => EnsureOutcome.ok)
      ⟨[(⟨"c", ⟨"g", "v", "K"⟩⟩, ⟨0⟩)], [], 1, []⟩ ⟨"c", ⟨"g", "v", "K"⟩⟩ (by decide)).1

/-- Helper: registry lookup succeeds exactly for keys of the registry. -/
theorem lookupKey_isSome_iff (l : List (gvkWithConfig × cdCache)) (k : gvkWithConfig) :
    (lookupKey l k).isSome = true ↔ k ∈ l.map Prod.fst := by
  induction l with
  | nil => simp [lookupKey]
  | cons e rest ih =>
    simp only [lookupKey, List.map_cons, List.mem_cons]
    by_cases he : e.1 = k
    · simp [he]
    · rw [if_neg he]
      have hne : ¬k = e.1 := fun hc => he hc.symm
      simp [hne, ih]

/-- Helper: the registry keys a `WatchReferencedResources` call
produces depend only on the registry keys it starts from. -/
theorem watchReferencedResources_keys_congr (env : gvkWithConfig → EnsureOutcome)
    (st1 st2 : InformersState) (gcs : List gvkWithConfig)
    (h : st1.cdCaches.map Prod.fst = st2.cdCaches.map Prod.fst) :
    (watchReferencedResources env st1 gcs).cdCaches.map Prod.fst
      = (watchReferencedResources env st2 gcs).cdCaches.map Prod.fst := by
  induction gcs generalizing st1 st2 with
  | nil => exact h
  | cons g rest ih =>
    apply ih
    unfold ensureOne
    by_cases h1 : (lookupKey st1.cdCaches g).isSome = true
    · have h2 : (lookupKey st2.cdCaches g).isSome = true := by
        rw [lookupKey_isSome_iff] at h1 ⊢
        rw [← h]
        exact h1
      rw [if_pos h1, if_pos h2]
      exact h
    · have h2 : ¬(lookupKey st2.cdCaches g).isSome = true := by
        rw [lookupKey_isSome_iff] at h1 ⊢
        rw [← h]
        exact h1
      rw [if_neg h1, if_neg h2]
      cases env g
      · exact h
      · exact h
      · exact h
      · simp only [List.map_append, h, List.map_cons, List.map_nil]

/-- Claim C6: when constructing the cache, obtaining the informer or
attaching the handler fails for a key, that key is not recorded in the
registry (the registry is unchanged), a cancellable context that was
already created for it is cancelled before moving on (nothing in the
cache-construction failure case, where no context exists yet), and the
remaining keys of the same call are processed exactly as if the failing
key were absent; the embedded method returns no error channel at all,
matching the Go method's empty return list. -/
theorem watchReferencedResources_failure_spec (env : gvkWithConfig → EnsureOutcome)
    (st : InformersState) (gc : gvkWithConfig) (rest : List gvkWithConfig)
    (hnew : lookupKey st.cdCaches gc = none)
    (hfail : env gc ≠ EnsureOutcome.ok) :
    (ensureOne env st gc).cdCaches = st.cdCaches
    ∧ (ensureOne env st gc).cancelled
        = st.cancelled
          ++ (if env gc = EnsureOutcome.cacheNewFails then [] else [st.nextSession])
    ∧ (watchReferencedResources env st (gc :: rest)).cdCaches.map Prod.fst
        = (watchReferencedResources env st rest).cdCaches.map Prod.fst := by
  have hn : ¬(lookupKey st.cdCaches gc).isSome = true := by
    rw [hnew]
    simp
  have hcd : (ensureOne env st gc).cdCaches = st.cdCaches := by
    unfold ensureOne
    rw [if_neg hn]
    cases henv : env gc
    · rfl
    · rfl
    · rfl
    · exact absurd henv hfail
  refine ⟨hcd, ?_, ?_⟩
  · unfold ensureOne
    rw [if_neg hn]
    cases henv : env gc
    · rw [if_pos rfl]
      simp
    · rw [if_neg (by simp)]
    · rw [if_neg (by simp)]
    · exact absurd henv hfail
  · show (watchReferencedResources env (ensureOne env st gc) rest).cdCaches.map Prod.fst
        = (watchReferencedResources env st rest).cdCaches.map Prod.fst
    exact watchReferencedResources_keys_congr env (ensureOne env st gc) st rest
      (by rw [hcd])

/-- Witness for C6: an informer-acquisition failure on a fresh key
leaves the registry empty and cancels the context that had been
created. -/
theorem watchReferencedResources_failure_witness :
    (lookupKey ([] : List (gvkWithConfig × cdCache)) ⟨"c", ⟨"g", "v", "K"⟩⟩ = none)
    ∧ (EnsureOutcome.getInformerFails ≠ EnsureOutcome.ok)
    ∧ (ensureOne (fun _ => EnsureOutcome.getInformerFails)
        ⟨[], [], 5, []⟩ ⟨"c", ⟨"g", "v", "K"⟩⟩).cancelled
      = [] ++ (if (fun _ : gvkWithConfig => EnsureOutcome.getInformerFails)
            (⟨"c", ⟨"g", "v", "K"⟩⟩ : gvkWithConfig) = EnsureOutcome.cacheNewFails
          then [] else [5]) := by
  refine ⟨rfl, by decide, ?_⟩
  exact (watchReferencedResources_failure_spec
      (fun _ => EnsureOutcome.getInformerFails) ⟨[], [], 5, []⟩
      ⟨"c", ⟨"g", "v", "K"⟩⟩ [] rfl (by decide)).2.1

/-- Helper: a sweep leaves the sinks table untouched. -/
theorem sweep_foldl_sinks (q : gvkWithConfig → Option Nat)
    (L : List (gvkWithConfig × cdCache)) (acc : InformersState) :
    (L.foldl (sweepStep q) acc).sinks = acc.sinks := by
  induction L generalizing acc with
  | nil => rfl
  | cons e L ih =>
    rw [List.foldl_cons, ih]
    unfold sweepStep
    by_cases h : 0 < (q e.1).getD 0
    · rw [if_pos h]
    · rw [if_neg h]

/-- Helper: a sweep appends to the cancellation log exactly the session
identifier of every entry it garbage-collects, in registry order. -/
theorem sweep_foldl_cancelled (q : gvkWithConfig → Option Nat)
    (L : List (gvkWithConfig × cdCache)) (acc : InformersState) :
    (L.foldl (sweepStep q) acc).cancelled
      = acc.cancelled ++ (L.filter (sweepRemoves q)).map (fun e => e.2.sessionId) := by
  induction L generalizing acc with
  | nil => simp
  | cons e L ih =>
    rw [List.foldl_cons, ih, List.filter_cons]
    by_cases h : 0 < (q e.1).getD 0
    · have hrem : sweepRemoves q e = false := by
        simp only [sweepRemoves, decide_eq_false_iff_not]
        exact Nat.pos_iff_ne_zero.mp h
      rw [if_neg (by simp [hrem])]
      unfold sweepStep
      rw [if_pos h]
    · have h0 : (q e.1).getD 0 = 0 := Nat.eq_zero_of_not_pos h
      have hrem : sweepRemoves q e = true := by
        simp [sweepRemoves, h0]
      rw [if_pos (by simp [hrem])]
      unfold sweepStep
      rw [if_neg h]
      simp [List.append_assoc]

/-- Helper: a sweep keeps exactly the registry entries no swept entry
with the same key garbage-collects. -/
theorem sweep_foldl_cdCaches (q : gvkWithConfig → Option Nat)
    (L : List (gvkWithConfig × cdCache)) (acc : InformersState) :
    (L.foldl (sweepStep q) acc).cdCaches
      = acc.cdCaches.filter
          (fun f => !(L.any (fun e => sweepRemoves q e && decide (e.1 = f.1)))) := by
  induction L generalizing acc with
  | nil => simp
  | cons e L ih =>
    rw [List.foldl_cons, ih]
    by_cases h : 0 < (q e.1).getD 0
    · have hrem : sweepRemoves q e = false := by
        simp only [sweepRemoves, decide_eq_false_iff_not]
        exact Nat.pos_iff_ne_zero.mp h
      unfold sweepStep
      rw [if_pos h]
      apply List.filter_congr
      intro f _
      simp [List.any_cons, hrem]
    · have h0 : (q e.1).getD 0 = 0 := Nat.eq_zero_of_not_pos h
      have hrem : sweepRemoves q e = true := by
        simp [sweepRemoves, h0]
      unfold sweepStep
      rw [if_neg h]
      simp only []
      rw [List.filter_filter]
      apply List.filter_congr
      intro f _
      simp only [List.any_cons, hrem, Bool.true_and, Bool.not_or, Bool.and_comm]
      have : (decide (e.1 = f.1)) = !(decide (f.1 ≠ e.1)) := by
        by_cases hef : e.1 = f.1
        · simp [hef]
        · have hfe : ¬f.1 = e.1 := fun hc => hef hc.symm
          simp [hef, hfe]
      rw [this]
      simp

/-- Helper: in a list of keyed entries with pairwise-distinct keys,
lookup of a member entry's key finds exactly that entry. -/
theorem lookupKey_of_mem_nodup (l : List (gvkWithConfig × cdCache))
    (e : gvkWithConfig × cdCache) (hmem : e ∈ l)
    (hnodup : (l.map Prod.fst).Nodup) :
    lookupKey l e.1 = some e.2 := by
  induction l with
  | nil => simp at hmem
  | cons g rest ih =>
    rw [List.map_cons, List.nodup_cons] at hnodup
    rcases List.mem_cons.mp hmem with rfl | hmem2
    · simp [lookupKey]
    · have hne : ¬g.1 = e.1 := by
        intro hc
        exact hnodup.1 (hc ▸ List.mem_map_of_mem Prod.fst hmem2)
      simp only [lookupKey]
      rw [if_neg hne]
      exact ih hmem2 hnodup.2

/-- Helper: in a duplicate-free list, a member is counted exactly once
by the equality predicate. -/
theorem countP_eq_one_of_nodup_mem {α : Type} [DecidableEq α] (l : List α) (a : α)
    (hnodup : l.Nodup) (hmem : a ∈ l) :
    l.countP (fun x => decide (x = a)) = 1 := by
  induction l with
  | nil => simp at hmem
  | cons b rest ih =>
    rw [List.nodup_cons] at hnodup
    rw [List.countP_cons]
    by_cases hb : b = a
    · subst hb
      have hzero : rest.countP (fun x => decide (x = b)) = 0 := by
        rw [List.countP_eq_zero]
        intro x hx
        simp only [decide_eq_true_eq]
        rintro rfl
        exact hnodup.1 hx
      simp [hzero]
    · have hmem2 : a ∈ rest := by
        rcases List.mem_cons.mp hmem with rfl | hm
        · exact absurd rfl hb
        · exact hm
      simp [ih hnodup.2 hmem2, hb]

/-- Claim C5: after a sweep in which every reference-index query
succeeds, every registry entry whose query returned zero referencing
objects is absent and its cancellation handle was invoked exactly once,
and every entry whose query returned at least one referencing object is
still present unmodified with its cancellation handle not invoked. -/
theorem cleanup_success_spec (q : gvkWithConfig → Option Nat) (st : InformersState)
    (e : gvkWithConfig × cdCache)
    (hkeys : (st.cdCaches.map Prod.fst).Nodup)
    (hsids : (st.cdCaches.map (fun f => f.2.sessionId)).Nodup)
    (hq : ∀ f ∈ st.cdCaches, (q f.1).isSome = true)
    (hmem : e ∈ st.cdCaches) :
    (q e.1 = some 0 →
      e.1 ∉ (cleanupReferencedResourceInformers q st).cdCaches.map Prod.fst
      ∧ (cleanupReferencedResourceInformers q st).cancelled.countP
          (fun x => decide (x = e.2.sessionId))
        = st.cancelled.countP (fun x => decide (x = e.2.sessionId)) + 1)
    ∧ (∀ n, q e.1 = some (n + 1) →
      lookupKey (cleanupReferencedResourceInformers q st).cdCaches e.1 = some e.2
      ∧ (cleanupReferencedResourceInformers q st).cancelled.countP
          (fun x => decide (x = e.2.sessionId))
        = st.cancelled.countP (fun x => decide (x = e.2.sessionId))) := by
  constructor
  · intro hq0
    have hrem : sweepRemoves q e = true := by
      simp [sweepRemoves, hq0]
    constructor
    · intro hcon
      rcases List.mem_map.mp hcon with ⟨f, hf, hfe⟩
      rw [cleanupReferencedResourceInformers, sweep_foldl_cdCaches] at hf
      have hcond := List.of_mem_filter hf
      simp only [Bool.not_eq_true', List.any_eq_false] at hcond
      have hx := hcond e hmem
      rw [hrem, hfe] at hx
      simp at hx
    · rw [cleanupReferencedResourceInformers, sweep_foldl_cancelled, List.countP_append]
      have h1 : ((st.cdCaches.filter (sweepRemoves q)).map
          (fun f => f.2.sessionId)).countP (fun x => decide (x = e.2.sessionId)) = 1 := by
        apply countP_eq_one_of_nodup_mem
        · exact hsids.sublist ((List.filter_sublist st.cdCaches).map
            (fun f => f.2.sessionId))
        · exact List.mem_map_of_mem (fun f => f.2.sessionId)
            (List.mem_filter.mpr ⟨hmem, hrem⟩)
      rw [h1]
  · intro n hqn
    have hrem : sweepRemoves q e = false := by
      simp [sweepRemoves, hqn]
    have hnorem : ∀ g ∈ st.cdCaches, (sweepRemoves q g && decide (g.1 = e.1)) = false := by
      intro g hg
      by_cases hge : g.1 = e.1
      · have : sweepRemoves q g = false := by
          simp only [sweepRemoves] at hrem ⊢
          rw [hge]
          exact hrem
        simp [this]
      · simp [hge]
    constructor
    · rw [cleanupReferencedResourceInformers, sweep_foldl_cdCaches]
      apply lookupKey_of_mem_nodup
      · refine List.mem_filter.mpr ⟨hmem, ?_⟩
        simp only [Bool.not_eq_true', List.any_eq_false]
        intro g hg
        simp [hnorem g hg]
      · exact hkeys.sublist ((List.filter_sublist st.cdCaches).map Prod.fst)
    · rw [cleanupReferencedResourceInformers, sweep_foldl_cancelled, List.countP_append]
      have h0 : ((st.cdCaches.filter (sweepRemoves q)).map
          (fun f => f.2.sessionId)).countP (fun x => decide (x = e.2.sessionId)) = 0 := by
        rw [List.countP_eq_zero]
        intro x hx
        simp only [decide_eq_true_eq]
        rintro rfl
        rcases List.mem_map.mp hx with ⟨g, hg, hgx⟩
        have hgL := (List.mem_filter.mp hg).1
        have hgrem := (List.mem_filter.mp hg).2
        have hge : g = e := List.inj_on_of_nodup_map hsids hgL hmem hgx
        rw [hge, hrem] at hgrem
        exact Bool.false_ne_true hgrem
      rw [h0]
      exact Nat.add_zero _

/-- Witness for C5: with sessions for keys A (one referencer) and B
(zero referencers), the sweep removes B and cancels its handle once. -/
theorem cleanup_success_witness :
    ((([(⟨"c", ⟨"g", "v", "A"⟩⟩, ⟨0⟩), (⟨"c", ⟨"g", "v", "B"⟩⟩, ⟨1⟩)] :
        List (gvkWithConfig × cdCache)).map Prod.fst).Nodup)
    ∧ ((fun g : gvkWithConfig => if g.gvk.kind = "A" then some 1 else some 0)
        (⟨"c", ⟨"g", "v", "B"⟩⟩ : gvkWithConfig) = some 0)
    ∧ (⟨"c", ⟨"g", "v", "B"⟩⟩ : gvkWithConfig) ∉
        (cleanupReferencedResourceInformers
          (fun g => if g.gvk.kind = "A" then some 1 else some 0)
          ⟨[(⟨"c", ⟨"g", "v", "A"⟩⟩, ⟨0⟩), (⟨"c", ⟨"g", "v", "B"⟩⟩, ⟨1⟩)], [], 2, []⟩).cdCaches.map
          Prod.fst := by
  refine ⟨by decide, by decide, ?_⟩
  exact ((cleanup_success_spec
      (fun g => if g.gvk.kind = "A" then some 1 else some 0)
      ⟨[(⟨"c", ⟨"g", "v", "A"⟩⟩, ⟨0⟩), (⟨"c", ⟨"g", "v", "B"⟩⟩, ⟨1⟩)], [], 2, []⟩
      (⟨"c", ⟨"g", "v", "B"⟩⟩, ⟨1⟩)
      (by decide) (by decide) (by decide) (by decide)).1 (by decide)).1

/-- Claim C1 evaluated on the code: with one registered session and a
reference-index query that fails, the sweep cancels the session and
removes the key.  The loop body logs the `List` error but does not skip
the key, so the still-empty item list falls through to the deletion
branch — the opposite of the claimed skip-and-retain behavior. -/
theorem cleanup_query_failure_deletes :
    (cleanupReferencedResourceInformers (fun _ => none)
      ⟨[(⟨"c", ⟨"g", "v", "K"⟩⟩, ⟨0⟩)], [], 1, []⟩).cdCaches = []
    ∧ (cleanupReferencedResourceInformers (fun _ => none)
      ⟨[(⟨"c", ⟨"g", "v", "K"⟩⟩, ⟨0⟩)], [], 1, []⟩).cancelled = [0] := by
  constructor
  · rfl
  · rfl

/-- Claim C2 evaluated on the code's lock usage: the sinks-table
mutations of `Start` and of its unsubscribe goroutine do run under the
write lock, but `WatchReferencedResources` performs its registry
insertion under the read lock (RLock, lines 102-103) and the
garbage-collection sweep performs its registry deletions with no lock
held at all, so neither mutation is covered by the write lock. -/
theorem lock_discipline_code_behavior :
    mutationsUnderWriteLock startTrace 0 = true
    ∧ mutationsUnderWriteLock unsubscribeTrace 0 = true
    ∧ mutationsUnderWriteLock (watchReferencedResourcesTrace
        (fun _ => EnsureOutcome.ok) [] [⟨"c", ⟨"g", "v", "K"⟩⟩]) 0 = false
    ∧ mutationsUnderWriteLock (cleanupTrace (fun _ => some 0)
        [(⟨"c", ⟨"g", "v", "K"⟩⟩, ⟨0⟩)]) 0 = false := by
  refine ⟨rfl, rfl, rfl, rfl⟩

end Informers
